import Mathlib

/-!
# Verification of the attestation aggregation core of crypto-scam-tracker

Shallow embedding of the two logic-bearing source files:

* `SiteRatingsContext.tsx` — `loadSiteRatings` / `rateSite` (site-safety pipeline),
* `useCommentVotes.ts` — `getVotesForComments` / `voteOnComment` (comment-vote pipeline).

External collaborators (the attestation service `getAttestations`,
`getLatestAttestationForUser`, `createAttestation`; the wallet context; the
toast channel) are modelled as explicit parameters: fallible service calls are
`Except String α` values, toasts are accumulated in an output list.

JavaScript idioms are embedded explicitly:

* a JS object keyed by strings is an insertion-ordered association list
  `List (String × α)`; assignment `obj[k] = v` replaces in place when the key
  exists and appends otherwise (`objSet`);
* a JS `Set` built from a list keeps the first occurrence of each element
  (`jsSet`);
* `string.toLowerCase()` is `String.jsLower`; timestamps compared through
  `new Date` are `Nat`s compared with `<`;
* a missing environment variable / absent wallet address is `Option.none`;
  a rejected promise is modelled by a `Bool` flag (`threw`) in the result.
-/

/-- JavaScript's `toLowerCase()` on the ASCII identifier strings this system
handles: lowercase every character. (Character-wise structural recursion is
used rather than `String.toLower`, whose `mapAux` loop does not evaluate
definitionally; on these strings the two agree.) -/
def String.jsLower (s : String) : String := ⟨s.data.map Char.toLower⟩

namespace ScamTracker

/-- One vote attestation as consumed by `getVotesForComments`
(`attestation.attester`, `attestation.attestTimestamp`,
`attestation.decodedData.vote`). -/
structure VoteAttestation where
  attester : String
  attestTimestamp : Nat
  vote : Int
  deriving Repr, DecidableEq

/-- First-match lookup in a JS-object association list (`acc[k]`). -/
def lookupKey (k : String) : List (String × α) → Option α
  | [] => none
  | (k2, v) :: rest => if k2 = k then some v else lookupKey k rest

/-- JS-object assignment `obj[k] = v`: replace in place if the key exists,
append otherwise (JS objects preserve first-insertion key order). -/
def objSet (m : List (String × α)) (k : String) (v : α) : List (String × α) :=
  match m with
  | [] => [(k, v)]
  | (k2, v2) :: rest =>
    if k2 = k then (k2, v) :: rest else (k2, v2) :: objSet rest k v

/-- One step of the `userVotes` reduce in `getVotesForComments`:
`const attester = attestation.attester.toLowerCase();
 if (!acc[attester] || new Date(attestation.attestTimestamp) >
     new Date(acc[attester].attestTimestamp)) acc[attester] = attestation;` -/
def insertVote (acc : List (String × VoteAttestation)) (a : VoteAttestation) :
    List (String × VoteAttestation) :=
  let attester := a.attester.jsLower
  match lookupKey attester acc with
  | none => objSet acc attester a
  | some held =>
    if held.attestTimestamp < a.attestTimestamp then objSet acc attester a else acc

/-- The `userVotes` map: `voteAttestations.reduce(..., {})`. -/
def userVotesReduce (atts : List VoteAttestation) : List (String × VoteAttestation) :=
  atts.foldl insertVote []

/-- One step of the per-comment tallying loop of `getVotesForComments`:
`if (voteValue === 1) upvotes++; else if (voteValue === -1) downvotes++;`. -/
def tallyStep (ud : Nat × Nat) (p : String × VoteAttestation) : Nat × Nat :=
  if p.2.vote = 1 then (ud.1 + 1, ud.2)
  else if p.2.vote = -1 then (ud.1, ud.2 + 1)
  else ud

/-- The `(upvotes, downvotes)` pair computed by iterating
`Object.values(userVotes)`. -/
def tallyVotes (m : List (String × VoteAttestation)) : Nat × Nat :=
  m.foldl tallyStep (0, 0)

/-- The `userVote` assignment inside the same loop:
`if (attestation.attester.toLowerCase() === ethAddress?.toLowerCase())
   userVote = voteValue;` — when `ethAddress` is absent the optional chaining
yields `undefined`, which is `===`-equal to no string. -/
def computeUserVote (ethAddress : Option String)
    (m : List (String × VoteAttestation)) : Option Int :=
  m.foldl
    (fun uv p =>
      match ethAddress with
      | none => uv
      | some addr => if p.2.attester.jsLower = addr.jsLower then some p.2.vote else uv)
    none

/-- The per-comment entry `{ upvotes, downvotes, userVote }` of the vote map. -/
structure VoteResult where
  upvotes : Nat
  downvotes : Nat
  userVote : Option Int
  deriving Repr, DecidableEq

/-- Resolution and aggregation for one comment's attestation list (the body of
the `for (const commentId of commentIds)` loop after the fetch). -/
def votesForComment (ethAddress : Option String) (atts : List VoteAttestation) :
    VoteResult :=
  let userVotes := userVotesReduce atts
  let ud := tallyVotes userVotes
  { upvotes := ud.1, downvotes := ud.2, userVote := computeUserVote ethAddress userVotes }

/-- The try-block of `getVotesForComments`: fetch each comment's attestations
in order and build `voteMap`; the first fetch rejection aborts the batch. -/
def buildVoteMap (ethAddress : Option String)
    (fetch : String → Except String (List VoteAttestation)) :
    List String → Except String (List (String × VoteResult))
  | [] => .ok []
  | commentId :: rest =>
    match fetch commentId with
    | .error e => .error e
    | .ok atts =>
      match buildVoteMap ethAddress fetch rest with
      | .error e => .error e
      | .ok m => .ok (objSet m commentId (votesForComment ethAddress atts))

/-- `getVotesForComments(commentIds)`: schema guard, then the fetch/reduce
loop; any caught error yields the empty map (`return {}`). The function never
rejects — errors are logged and `{}` returned. -/
def getVotesForComments (voteSchemaId : Option String) (ethAddress : Option String)
    (fetch : String → Except String (List VoteAttestation))
    (commentIds : List String) : List (String × VoteResult) :=
  match voteSchemaId with
  | none => []
  | some _ =>
    match buildVoteMap ethAddress fetch commentIds with
    | .error _ => []
    | .ok m => m

/-- A toast notification's status (`status: "success" | "error"`). -/
inductive ToastStatus where
  | success
  | error
  deriving Repr, DecidableEq

/-- `voteOnComment(commentId, isUpvote)`: returns the emitted toasts and
whether the returned promise rejects. The precondition guard toasts an error
and resolves; a `createAttestation` rejection is caught, toasts an error and
resolves; no state is mutated in either case. -/
def voteOnComment (voteSchemaId : Option String) (ethAddress : Option String)
    (commentId : String) (create : Except String Unit) :
    List ToastStatus × Bool :=
  if voteSchemaId.isNone ∨ commentId = "" ∨ ethAddress.isNone then
    ([ToastStatus.error], false)
  else
    match create with
    | .ok _ => ([ToastStatus.success], false)
    | .error _ => ([ToastStatus.error], false)

/-- One safety-rating attestation as consumed by `loadSiteRatings`
(`a.signer`, timestamp, and the truthiness of `decodedData.isSafe`). -/
structure SafetyAttestation where
  signer : String
  attestTimestamp : Nat
  isSafe : Bool
  deriving Repr, DecidableEq

/-- The published site tally `{ safeCount, unsafeCount, totalRatings }`. -/
structure SiteRatings where
  safeCount : Nat
  unsafeCount : Nat
  totalRatings : Nat
  deriving Repr, DecidableEq

/-- The mutable state of `SiteRatingsProvider` relevant to the pipeline:
`siteRatings` (initially `null`), `userRating` (initially `null`), `loading`. -/
structure SiteState where
  siteRatings : Option SiteRatings
  userRating : Option Bool
  loading : Bool
  deriving Repr, DecidableEq

/-- Adding one element to a JS `Set` (insertion order, first occurrence kept). -/
def jsSetAdd (seen : List String) (x : String) : List String :=
  if x ∈ seen then seen else seen ++ [x]

/-- `new Set(list)`: deduplicate, keeping first occurrences in order. -/
def jsSet (l : List String) : List String := l.foldl jsSetAdd []

/-- The `for (const user of uniqueUsers)` loop of `loadSiteRatings`: one
`getLatestAttestationForUser` call per user; a non-null result increments
`safeCount` or `unsafeCount` by the truthiness of `decodedData.isSafe`.
A rejected lookup aborts the try-block (the counts are discarded). -/
def countRatings (getLatest : String → Except String (Option SafetyAttestation)) :
    List String → Except String (Nat × Nat)
  | [] => .ok (0, 0)
  | user :: rest =>
    match getLatest user with
    | .error e => .error e
    | .ok latest =>
      match countRatings getLatest rest with
      | .error e => .error e
      | .ok sn =>
        match latest with
        | some a => .ok (if a.isSafe then (sn.1 + 1, sn.2) else (sn.1, sn.2 + 1))
        | none => .ok sn

/-- `loadSiteRatings(url)` as a state transition. The guard
`if (!SAFETY_RATING_SCHEMA_ID || !url) return;` leaves the state untouched.
Inside the try-block, `setSiteRatings` fires before the current user's own
lookup, so a rejection of that last lookup is caught with the fresh tally
already published; any earlier rejection is caught with no state change.
When `ethAddress` is absent the `if (ethAddress)` block is skipped entirely
and `userRating` keeps its previous value. -/
def loadSiteRatings (schemaId : Option String) (url : String)
    (ethAddress : Option String)
    (getAtts : Except String (List SafetyAttestation))
    (getLatest : String → Except String (Option SafetyAttestation))
    (st : SiteState) : SiteState :=
  if schemaId.isNone ∨ url = "" then st
  else
    let st1 := { st with loading := true }
    let st2 :=
      match getAtts with
      | .error _ => st1
      | .ok attestations =>
        let uniqueUsers := jsSet (attestations.map SafetyAttestation.signer)
        match countRatings getLatest uniqueUsers with
        | .error _ => st1
        | .ok sn =>
          let published :=
            { st1 with siteRatings := some ⟨sn.1, sn.2, sn.1 + sn.2⟩ }
          match ethAddress with
          | none => published
          | some addr =>
            match getLatest addr with
            | .error _ => published
            | .ok (some a) => { published with userRating := some a.isSafe }
            | .ok none => { published with userRating := none }
    { st2 with loading := false }

/-- `rateSite(isSafe)`: the precondition guard throws synchronously (no toast,
no I/O); a `createAttestation` rejection is caught, toasts one error and
re-throws with the state unchanged; on success the pipeline reloads, then
`setUserRating(isSafe)` and one success toast. Result: (new state, toasts
emitted, whether the returned promise rejects). -/
def rateSite (schemaId : Option String) (currentUrl : String)
    (ethAddress : Option String) (userEmail : Option String) (isSafe : Bool)
    (create : Except String Unit)
    (getAtts : Except String (List SafetyAttestation))
    (getLatest : String → Except String (Option SafetyAttestation))
    (st : SiteState) : SiteState × List ToastStatus × Bool :=
  if schemaId.isNone ∨ currentUrl = "" ∨ ethAddress.isNone ∨ userEmail.isNone then
    (st, [], true)
  else
    let st1 := { st with loading := true }
    match create with
    | .error _ => ({ st1 with loading := false }, [ToastStatus.error], true)
    | .ok _ =>
      let st2 := loadSiteRatings schemaId currentUrl ethAddress getAtts getLatest st1
      let st3 := { st2 with userRating := some isSafe }
      ({ st3 with loading := false }, [ToastStatus.success], false)

/-- One step of latest-record resolution: replace the held element only when
the candidate is strictly newer (so the first element attaining the maximal
timestamp is kept). This is exactly the comparison inside the `userVotes`
reduce. -/
def latestStep (ts : α → Nat) (held : Option α) (a : α) : Option α :=
  match held with
  | none => some a
  | some h => if ts h < ts a then some a else held

/-- Resolve the latest element of a list by a timestamp projection. -/
def latestBy (ts : α → Nat) (l : List α) : Option α :=
  l.foldl (latestStep ts) none

/-- The sub-sequence of vote attestations belonging (case-folded) to signer
`s`. -/
def recordsOf (atts : List VoteAttestation) (s : String) : List VoteAttestation :=
  atts.filter (fun b => b.attester.jsLower = s)

/-- The sub-sequence of safety attestations whose signer case-folds to the
same string as `signer`. -/
def siteRecordsOf (records : List SafetyAttestation) (signer : String) :
    List SafetyAttestation :=
  records.filter (fun a => a.signer.jsLower = signer.jsLower)

/-- Modelled from the spec: the attestation service operation
`latestRecordForSigner(schemaId, subjectKey, signer)` backing the
`getLatestAttestationForUser` hook, which is not among the core source files.
The spec (§6) calls it "equivalent to resolving a single signer's latest
record without fetching the full set", with case-insensitive signer
comparison (§3) and replace-if-strictly-newer resolution (§4.1). -/
def latestRecordForSigner (records : List SafetyAttestation) (signer : String) :
    Option SafetyAttestation :=
  latestBy (·.attestTimestamp) (siteRecordsOf records signer)

/-! ## Concrete data used by counterexamples and witnesses -/

/-- Two vote attestations of one signer: an upvote, then a later downvote. -/
def exVotes : List VoteAttestation := [⟨"0xA", 1, 1⟩, ⟨"0xA", 5, -1⟩]

/-- Spec scenario 7: signer A votes `+1`, later votes `-1`; signer B votes
`+1`. -/
def exScenario7 : List VoteAttestation := [⟨"0xA", 1, 1⟩, ⟨"0xA", 5, -1⟩, ⟨"0xB", 3, 1⟩]

/-- Two safety attestations whose signers differ only in letter case. -/
def exCaseRecords : List SafetyAttestation := [⟨"0xABC", 0, true⟩, ⟨"0xabc", 1, true⟩]

/-- Spec scenario 6: three distinct signers rate `true, true, false`, then the
first re-rates `false` at a later timestamp. -/
def exScenario6 : List SafetyAttestation :=
  [⟨"u1", 1, true⟩, ⟨"u2", 2, true⟩, ⟨"u3", 3, false⟩, ⟨"u1", 4, false⟩]

/-- A single safety attestation by signer `"0xa"`. -/
def exOneRecord : List SafetyAttestation := [⟨"0xa", 0, true⟩]

/-- A lookup oracle over `exOneRecord` that rejects exactly for the current
user `"0xb"` (a retrieval failure striking the own-record lookup). -/
def exFailingUserOracle : String → Except String (Option SafetyAttestation) :=
  fun u => if u = "0xb" then .error "network" else .ok (latestRecordForSigner exOneRecord u)

/-- The always-succeeding lookup oracle induced by a fixed record set: the
spec-modelled `latestRecordForSigner` wrapped in a fulfilled promise. -/
def okOracle (records : List SafetyAttestation) :
    String → Except String (Option SafetyAttestation) :=
  fun u => .ok (latestRecordForSigner records u)

/-! ## Association-list (JS object) lemmas -/

theorem lookupKey_objSet_self (m : List (String × α)) (k : String) (v : α) :
    lookupKey k (objSet m k v) = some v := by
  induction m with
  | nil => simp [objSet, lookupKey]
  | cons p rest ih =>
    obtain ⟨k2, v2⟩ := p
    by_cases h : k2 = k
    · simp [objSet, h, lookupKey]
    · simp [objSet, h, lookupKey, ih]

theorem lookupKey_objSet_ne (m : List (String × α)) {k k' : String} (v : α)
    (h : k' ≠ k) : lookupKey k' (objSet m k v) = lookupKey k' m := by
  induction m with
  | nil => simp [objSet, lookupKey, Ne.symm h]
  | cons p rest ih =>
    obtain ⟨k2, v2⟩ := p
    by_cases h2 : k2 = k
    · subst h2; simp [objSet, lookupKey, Ne.symm h]
    · simp [objSet, h2, lookupKey, ih]

theorem lookupKey_eq_none_iff (m : List (String × α)) (k : String) :
    lookupKey k m = none ↔ k ∉ m.map Prod.fst := by
  induction m with
  | nil => simp [lookupKey]
  | cons p rest ih =>
    obtain ⟨k2, v2⟩ := p
    by_cases h : k2 = k
    · subst h; simp [lookupKey]
    · simp [lookupKey, h, ih, Ne.symm h]

theorem map_fst_objSet_present (m : List (String × α)) (k : String) (v : α)
    (h : k ∈ m.map Prod.fst) :
    (objSet m k v).map Prod.fst = m.map Prod.fst := by
  induction m with
  | nil => simp at h
  | cons p rest ih =>
    obtain ⟨k2, v2⟩ := p
    by_cases h2 : k2 = k
    · simp [objSet, h2]
    · have hr : k ∈ rest.map Prod.fst := by
        rcases (by simpa using h : k = k2 ∨ k ∈ rest.map Prod.fst) with h3 | h3
        · exact absurd h3.symm h2
        · exact h3
      simp [objSet, h2, ih hr]

theorem map_fst_objSet_absent (m : List (String × α)) (k : String) (v : α)
    (h : k ∉ m.map Prod.fst) :
    (objSet m k v).map Prod.fst = m.map Prod.fst ++ [k] := by
  induction m with
  | nil => simp [objSet]
  | cons p rest ih =>
    obtain ⟨k2, v2⟩ := p
    have hk2 : k2 ≠ k := by
      rintro rfl
      exact h (by simp)
    have hr : k ∉ rest.map Prod.fst := fun hm => h (by simp [hm])
    simp [objSet, hk2, ih hr]

theorem mem_objSet_elim {m : List (String × α)} {k : String} {v : α}
    {p : String × α} (h : p ∈ objSet m k v) : p ∈ m ∨ p = (k, v) := by
  induction m with
  | nil => simp [objSet] at h; simp [h]
  | cons q rest ih =>
    obtain ⟨k2, v2⟩ := q
    by_cases h2 : k2 = k
    · subst h2
      simp only [objSet, if_pos rfl] at h
      rcases (by simpa using h) with h3 | h3
      · right; simp [h3]
      · left; simp [h3]
    · simp only [objSet, if_neg h2] at h
      rcases (by simpa using h) with h3 | h3
      · left; simp [h3]
      · rcases ih h3 with h4 | h4
        · left; simp [h4]
        · right; exact h4

/-! ## Latest-record resolution lemmas -/

/-- The total counterpart of `latestStep` once an element is held. -/
def pickNewer (ts : α → Nat) (h a : α) : α := if ts h < ts a then a else h

theorem latestStep_some (ts : α → Nat) (h a : α) :
    latestStep ts (some h) a = some (pickNewer ts h a) := by
  simp only [latestStep, pickNewer]
  split <;> rfl

theorem foldl_latestStep_some (ts : α → Nat) (xs : List α) :
    ∀ h : α, xs.foldl (latestStep ts) (some h) = some (xs.foldl (pickNewer ts) h) := by
  induction xs with
  | nil => intro h; rfl
  | cons y ys ih =>
    intro h
    rw [List.foldl_cons, List.foldl_cons, latestStep_some]
    exact ih _

theorem latestBy_nil (ts : α → Nat) : latestBy ts ([] : List α) = none := rfl

theorem latestBy_cons (ts : α → Nat) (x : α) (xs : List α) :
    latestBy ts (x :: xs) = some (xs.foldl (pickNewer ts) x) := by
  unfold latestBy
  rw [List.foldl_cons]
  exact foldl_latestStep_some ts xs x

/-- The fold with `pickNewer` computes the first element attaining the maximal
timestamp: it is a member, it dominates every timestamp, and it heads the
sub-list of elements sharing its timestamp. -/
theorem foldl_pickNewer_spec (ts : α → Nat) (xs : List α) :
    ∀ x : α,
      xs.foldl (pickNewer ts) x ∈ x :: xs ∧
      (∀ b ∈ x :: xs, ts b ≤ ts (xs.foldl (pickNewer ts) x)) ∧
      ((x :: xs).filter (fun b => ts b = ts (xs.foldl (pickNewer ts) x))).head? =
        some (xs.foldl (pickNewer ts) x) := by
  induction xs with
  | nil =>
    intro x
    refine ⟨by simp, ?_, ?_⟩
    · intro b hb
      rw [List.mem_singleton] at hb
      subst hb
      exact le_refl _
    · simp [List.filter]
  | cons y ys ih =>
    intro x
    rw [List.foldl_cons]
    by_cases hxy : ts x < ts y
    case pos =>
      have hpk : pickNewer ts x y = y := if_pos hxy
      rw [hpk]
      obtain ⟨hmem, hmax, hhead⟩ := ih y
      have hym : ts y ≤ ts (ys.foldl (pickNewer ts) y) :=
        hmax y (List.mem_cons_self y ys)
      have hxne : ¬ ts x = ts (ys.foldl (pickNewer ts) y) :=
        ne_of_lt (lt_of_lt_of_le hxy hym)
      refine ⟨List.mem_cons_of_mem x hmem, ?_, ?_⟩
      · intro b hb
        rcases List.mem_cons.mp hb with hb1 | hb1
        · subst hb1
          exact le_of_lt (lt_of_lt_of_le hxy hym)
        · exact hmax b hb1
      · rw [List.filter_cons, if_neg (by simpa using hxne)]
        exact hhead
    case neg =>
      have hpk : pickNewer ts x y = x := if_neg hxy
      rw [hpk]
      obtain ⟨hmem, hmax, hhead⟩ := ih x
      have hyx : ts y ≤ ts x := le_of_not_lt hxy
      have hxm : ts x ≤ ts (ys.foldl (pickNewer ts) x) :=
        hmax x (List.mem_cons_self x ys)
      refine ⟨?_, ?_, ?_⟩
      · rcases List.mem_cons.mp hmem with hm | hm
        · rw [hm]
          exact List.mem_cons_self x (y :: ys)
        · exact List.mem_cons_of_mem x (List.mem_cons_of_mem y hm)
      · intro b hb
        rcases List.mem_cons.mp hb with hb1 | hb1
        · subst hb1
          exact hxm
        · rcases List.mem_cons.mp hb1 with hb2 | hb2
          · subst hb2
            exact le_trans hyx hxm
          · exact hmax b (List.mem_cons_of_mem x hb2)
      · by_cases hx : ts x = ts (ys.foldl (pickNewer ts) x)
        case pos =>
          have hfx : ((x :: ys).filter
              (fun b => ts b = ts (ys.foldl (pickNewer ts) x))).head? = some x := by
            rw [List.filter_cons, if_pos (by simpa using hx), List.head?_cons]
          have hxeq : ys.foldl (pickNewer ts) x = x :=
            Option.some_inj.mp (hhead.symm.trans hfx)
          rw [List.filter_cons, if_pos (by simpa using hx), List.head?_cons]
          exact congrArg some hxeq.symm
        case neg =>
          have hy : ¬ ts y = ts (ys.foldl (pickNewer ts) x) := by
            intro hyeq
            exact hx (le_antisymm hxm (hyeq ▸ hyx))
          rw [List.filter_cons, if_neg (by simpa using hx), List.filter_cons,
            if_neg (by simpa using hy)]
          rw [List.filter_cons, if_neg (by simpa using hx)] at hhead
          exact hhead

/-! ## Bridging the `userVotes` reduce to latest-record resolution -/

theorem lookupKey_insertVote (acc : List (String × VoteAttestation))
    (a : VoteAttestation) (s : String) :
    lookupKey s (insertVote acc a) =
      if a.attester.jsLower = s then
        latestStep (·.attestTimestamp) (lookupKey s acc) a
      else lookupKey s acc := by
  by_cases hs : a.attester.jsLower = s
  case pos =>
    rw [if_pos hs, ← hs]
    cases hl : lookupKey a.attester.jsLower acc with
    | none =>
      simp only [insertVote, hl]
      rw [lookupKey_objSet_self, latestStep]
    | some held =>
      simp only [insertVote, hl]
      by_cases ht : held.attestTimestamp < a.attestTimestamp
      · rw [if_pos ht, lookupKey_objSet_self, latestStep, if_pos ht]
      · rw [if_neg ht, hl, latestStep, if_neg ht]
  case neg =>
    rw [if_neg hs]
    have hne : s ≠ a.attester.jsLower := fun h => hs h.symm
    cases hl : lookupKey a.attester.jsLower acc with
    | none =>
      simp only [insertVote, hl]
      exact lookupKey_objSet_ne acc a hne
    | some held =>
      simp only [insertVote, hl]
      by_cases ht : held.attestTimestamp < a.attestTimestamp
      · rw [if_pos ht]
        exact lookupKey_objSet_ne acc a hne
      · rw [if_neg ht]

theorem lookupKey_foldl_insertVote (s : String) (atts : List VoteAttestation) :
    ∀ acc, lookupKey s (atts.foldl insertVote acc) =
      (atts.filter (fun b => b.attester.jsLower = s)).foldl
        (latestStep (·.attestTimestamp)) (lookupKey s acc) := by
  induction atts with
  | nil => intro acc; rfl
  | cons a rest ih =>
    intro acc
    rw [List.foldl_cons, ih (insertVote acc a), lookupKey_insertVote]
    by_cases hs : a.attester.jsLower = s
    · rw [if_pos hs, List.filter_cons, if_pos (by simpa using hs), List.foldl_cons]
    · rw [if_neg hs, List.filter_cons, if_neg (by simpa using hs)]

/-- The value the `userVotes` map holds for key `s` is exactly the
latest-record resolution of the sub-sequence of attestations whose case-folded
attester is `s`. -/
theorem lookupKey_userVotesReduce (atts : List VoteAttestation) (s : String) :
    lookupKey s (userVotesReduce atts) =
      latestBy (·.attestTimestamp) (recordsOf atts s) := by
  unfold userVotesReduce recordsOf latestBy
  rw [lookupKey_foldl_insertVote]
  rfl

/-! ## Keys of the `userVotes` map and `jsSet` lemmas -/

theorem map_fst_insertVote (acc : List (String × VoteAttestation))
    (a : VoteAttestation) :
    (insertVote acc a).map Prod.fst = jsSetAdd (acc.map Prod.fst) a.attester.jsLower := by
  unfold jsSetAdd
  cases hl : lookupKey a.attester.jsLower acc with
  | none =>
    have hk : a.attester.jsLower ∉ acc.map Prod.fst :=
      (lookupKey_eq_none_iff acc _).mp hl
    simp only [insertVote, hl]
    rw [map_fst_objSet_absent acc _ a hk, if_neg hk]
  | some held =>
    have hk : a.attester.jsLower ∈ acc.map Prod.fst := by
      by_contra hc
      rw [← lookupKey_eq_none_iff acc] at hc
      rw [hc] at hl
      exact Option.noConfusion hl
    simp only [insertVote, hl]
    by_cases ht : held.attestTimestamp < a.attestTimestamp
    · rw [if_pos ht, map_fst_objSet_present acc _ a hk, if_pos hk]
    · rw [if_neg ht, if_pos hk]

theorem map_fst_foldl_insertVote (atts : List VoteAttestation) :
    ∀ acc, (atts.foldl insertVote acc).map Prod.fst =
      (atts.map (fun a => a.attester.jsLower)).foldl jsSetAdd (acc.map Prod.fst) := by
  induction atts with
  | nil => intro acc; rfl
  | cons a rest ih =>
    intro acc
    rw [List.foldl_cons, List.map_cons, List.foldl_cons, ih, map_fst_insertVote]

/-- The keys of the `userVotes` map are exactly the case-folded attesters in
first-occurrence order — the comment pipeline deduplicates case-insensitively. -/
theorem map_fst_userVotesReduce (atts : List VoteAttestation) :
    (userVotesReduce atts).map Prod.fst =
      jsSet (atts.map (fun a => a.attester.jsLower)) :=
  map_fst_foldl_insertVote atts []

theorem mem_foldl_jsSetAdd (l : List String) :
    ∀ seen x, x ∈ l.foldl jsSetAdd seen ↔ x ∈ seen ∨ x ∈ l := by
  induction l with
  | nil => intro seen x; simp
  | cons y ys ih =>
    intro seen x
    rw [List.foldl_cons, ih]
    unfold jsSetAdd
    by_cases hy : y ∈ seen
    · rw [if_pos hy]
      constructor
      · rintro (h | h)
        · exact Or.inl h
        · exact Or.inr (List.mem_cons_of_mem y h)
      · rintro (h | h)
        · exact Or.inl h
        · rcases List.mem_cons.mp h with h1 | h1
          · exact Or.inl (h1 ▸ hy)
          · exact Or.inr h1
    · rw [if_neg hy]
      simp only [List.mem_append, List.mem_singleton, List.mem_cons]
      tauto

theorem mem_jsSet (l : List String) (x : String) : x ∈ jsSet l ↔ x ∈ l := by
  unfold jsSet
  rw [mem_foldl_jsSetAdd]
  simp

theorem nodup_foldl_jsSetAdd (l : List String) :
    ∀ seen, seen.Nodup → (l.foldl jsSetAdd seen).Nodup := by
  induction l with
  | nil => intro seen h; exact h
  | cons y ys ih =>
    intro seen h
    rw [List.foldl_cons]
    apply ih
    unfold jsSetAdd
    by_cases hy : y ∈ seen
    · rw [if_pos hy]; exact h
    · rw [if_neg hy]
      rw [List.nodup_append]
      exact ⟨h, List.nodup_singleton y, fun a ha hb => hy ((List.mem_singleton.mp hb) ▸ ha)⟩

theorem nodup_jsSet (l : List String) : (jsSet l).Nodup :=
  nodup_foldl_jsSetAdd l [] List.nodup_nil

/-! ## Values of the `userVotes` map -/

theorem mem_insertVote_elim {acc : List (String × VoteAttestation)}
    {a : VoteAttestation} {p : String × VoteAttestation}
    (h : p ∈ insertVote acc a) : p ∈ acc ∨ p = (a.attester.jsLower, a) := by
  cases hl : lookupKey a.attester.jsLower acc with
  | none =>
    simp only [insertVote, hl] at h
    exact mem_objSet_elim h
  | some held =>
    simp only [insertVote, hl] at h
    by_cases ht : held.attestTimestamp < a.attestTimestamp
    · rw [if_pos ht] at h
      exact mem_objSet_elim h
    · rw [if_neg ht] at h
      exact Or.inl h

theorem mem_foldl_insertVote_elim (atts : List VoteAttestation) :
    ∀ acc (p : String × VoteAttestation), p ∈ atts.foldl insertVote acc →
      p ∈ acc ∨ (p.2 ∈ atts ∧ p.2.attester.jsLower = p.1) := by
  induction atts with
  | nil => intro acc p h; exact Or.inl h
  | cons a rest ih =>
    intro acc p h
    rw [List.foldl_cons] at h
    rcases ih (insertVote acc a) p h with h1 | h1
    · rcases mem_insertVote_elim h1 with h2 | h2
      · exact Or.inl h2
      · refine Or.inr ⟨?_, ?_⟩
        · rw [h2]; exact List.mem_cons_self a rest
        · rw [h2]
    · exact Or.inr ⟨List.mem_cons_of_mem a h1.1, h1.2⟩

/-- Every value held in the `userVotes` map is one of the input attestations,
stored under its own case-folded attester. -/
theorem mem_userVotesReduce_elim {atts : List VoteAttestation}
    {p : String × VoteAttestation} (h : p ∈ userVotesReduce atts) :
    p.2 ∈ atts ∧ p.2.attester.jsLower = p.1 := by
  rcases mem_foldl_insertVote_elim atts [] p h with h1 | h1
  · exact absurd h1 (List.not_mem_nil p)
  · exact h1

/-! ## Tallying lemmas -/

theorem foldl_tallyStep_sum (m : List (String × VoteAttestation)) :
    ∀ ud : Nat × Nat, (∀ p ∈ m, p.2.vote = 1 ∨ p.2.vote = -1) →
      (m.foldl tallyStep ud).1 + (m.foldl tallyStep ud).2 = ud.1 + ud.2 + m.length := by
  induction m with
  | nil => intro ud _; simp
  | cons p rest ih =>
    intro ud h
    rw [List.foldl_cons]
    rcases h p (List.mem_cons_self p rest) with h1 | h1
    · have hstep : tallyStep ud p = (ud.1 + 1, ud.2) := by rw [tallyStep, if_pos h1]
      rw [hstep, ih _ (fun q hq => h q (List.mem_cons_of_mem p hq))]
      simp [List.length_cons]
      omega
    · have hne : ¬ p.2.vote = 1 := by rw [h1]; decide
      have hstep : tallyStep ud p = (ud.1, ud.2 + 1) := by
        rw [tallyStep, if_neg hne, if_pos h1]
      rw [hstep, ih _ (fun q hq => h q (List.mem_cons_of_mem p hq))]
      simp [List.length_cons]
      omega

/-- When every held vote is `+1` or `-1`, `upvotes + downvotes` is the number
of entries of the map. -/
theorem tallyVotes_sum (m : List (String × VoteAttestation))
    (h : ∀ p ∈ m, p.2.vote = 1 ∨ p.2.vote = -1) :
    (tallyVotes m).1 + (tallyVotes m).2 = m.length := by
  unfold tallyVotes
  rw [foldl_tallyStep_sum m (0, 0) h]
  simp

/-! ## `userVote` lemmas -/

theorem computeUserVote_none (m : List (String × VoteAttestation)) :
    computeUserVote none m = none := by
  induction m with
  | nil => rfl
  | cons p rest ih => exact ih

theorem foldl_userVote_const (addr : String) (m : List (String × VoteAttestation))
    (h : ∀ p ∈ m, p.2.attester.jsLower ≠ addr.jsLower) :
    ∀ uv : Option Int,
      m.foldl
        (fun uv p =>
          if p.2.attester.jsLower = addr.jsLower then some p.2.vote else uv) uv = uv := by
  induction m with
  | nil => intro uv; rfl
  | cons p rest ih =>
    intro uv
    rw [List.foldl_cons, if_neg (h p (List.mem_cons_self p rest))]
    exact ih (fun q hq => h q (List.mem_cons_of_mem p hq)) uv

theorem computeUserVote_eq_lookup (addr : String)
    (m : List (String × VoteAttestation))
    (hinv : ∀ p ∈ m, p.2.attester.jsLower = p.1)
    (hnd : (m.map Prod.fst).Nodup) :
    computeUserVote (some addr) m =
      (lookupKey addr.jsLower m).map (fun a => a.vote) := by
  induction m with
  | nil => rfl
  | cons q rest ih =>
    obtain ⟨k, v⟩ := q
    have hk : v.attester.jsLower = k := hinv (k, v) (List.mem_cons_self _ _)
    have hknotin : k ∉ rest.map Prod.fst := by
      rw [List.map_cons, List.nodup_cons] at hnd
      exact hnd.1
    by_cases hmatch : v.attester.jsLower = addr.jsLower
    · have hrest : ∀ p ∈ rest, p.2.attester.jsLower ≠ addr.jsLower := by
        intro p hp hc
        apply hknotin
        have hp1 : p.2.attester.jsLower = p.1 := hinv p (List.mem_cons_of_mem _ hp)
        have : p.1 = k := by rw [← hp1, hc, ← hmatch, hk]
        rw [← this]
        exact List.mem_map_of_mem Prod.fst hp
      show List.foldl _ (if v.attester.jsLower = addr.jsLower then some v.vote else none) rest = _
      rw [if_pos hmatch, foldl_userVote_const addr rest hrest]
      rw [lookupKey, if_pos (hk ▸ hmatch)]
      rfl
    · have hkne : k ≠ addr.jsLower := fun hc => hmatch (hk.trans hc)
      show List.foldl _ (if v.attester.jsLower = addr.jsLower then some v.vote else none) rest = _
      rw [if_neg hmatch, lookupKey, if_neg hkne]
      exact ih (fun p hp => hinv p (List.mem_cons_of_mem _ hp))
        (by rw [List.map_cons, List.nodup_cons] at hnd; exact hnd.2)

/-! ## Site-pipeline counting lemmas -/

theorem countRatings_ok (f : String → Option SafetyAttestation) :
    ∀ users : List String,
      ∃ sn : Nat × Nat, countRatings (fun u => .ok (f u)) users = .ok sn := by
  intro users
  induction users with
  | nil => exact ⟨(0, 0), rfl⟩
  | cons u rest ih =>
    obtain ⟨sn, hsn⟩ := ih
    cases hf : f u with
    | none => exact ⟨sn, by simp [countRatings, hf, hsn]⟩
    | some a =>
      exact ⟨if a.isSafe then (sn.1 + 1, sn.2) else (sn.1, sn.2 + 1),
        by simp [countRatings, hf, hsn]⟩

theorem countRatings_length (f : String → Option SafetyAttestation) :
    ∀ users : List String, (∀ u ∈ users, (f u).isSome) →
      ∃ s n : Nat, countRatings (fun u => .ok (f u)) users = .ok (s, n) ∧
        s + n = users.length := by
  intro users
  induction users with
  | nil => intro _; exact ⟨0, 0, rfl, rfl⟩
  | cons u rest ih =>
    intro h
    obtain ⟨s, n, hsn, hlen⟩ := ih (fun q hq => h q (List.mem_cons_of_mem u hq))
    have hu : (f u).isSome := h u (List.mem_cons_self u rest)
    obtain ⟨a, ha⟩ := Option.isSome_iff_exists.mp hu
    by_cases hsafe : a.isSafe
    · refine ⟨s + 1, n, ?_, by simp [hlen]; omega⟩
      simp [countRatings, ha, hsn, hsafe]
    · refine ⟨s, n + 1, ?_, by simp [hlen]; omega⟩
      simp [countRatings, ha, hsn, hsafe]

/-! ## `latestBy` characterization and `loadSiteRatings` normal forms -/

theorem latestBy_spec (ts : α → Nat) (l : List α) (h : l ≠ []) :
    ∃ a, latestBy ts l = some a ∧ a ∈ l ∧ (∀ b ∈ l, ts b ≤ ts a) ∧
      (l.filter (fun b => ts b = ts a)).head? = some a := by
  cases l with
  | nil => exact absurd rfl h
  | cons x xs =>
    rw [latestBy_cons]
    obtain ⟨hmem, hmax, hhead⟩ := foldl_pickNewer_spec ts xs x
    exact ⟨_, rfl, hmem, hmax, hhead⟩

theorem latestBy_eq_none (ts : α → Nat) (l : List α) :
    latestBy ts l = none ↔ l = [] := by
  cases l with
  | nil => simp [latestBy_nil]
  | cons x xs =>
    rw [latestBy_cons]
    simp

theorem latestRecordForSigner_isSome {R : List SafetyAttestation} {u : String}
    (h : u ∈ R.map SafetyAttestation.signer) :
    (latestRecordForSigner R u).isSome := by
  obtain ⟨a, ha, hs⟩ := List.mem_map.mp h
  have hmem : a ∈ siteRecordsOf R u := by
    unfold siteRecordsOf
    rw [List.mem_filter]
    exact ⟨ha, by simp [hs]⟩
  cases hrec : siteRecordsOf R u with
  | nil => rw [hrec] at hmem; exact absurd hmem (List.not_mem_nil a)
  | cons x xs =>
    unfold latestRecordForSigner
    rw [hrec, latestBy_cons]
    rfl

theorem loadSiteRatings_ok_eq (sid url : String) (eth : Option String)
    (R : List SafetyAttestation)
    (gl : String → Except String (Option SafetyAttestation))
    (st : SiteState) (hurl : url ≠ "") {s n : Nat}
    (hcount : countRatings gl (jsSet (R.map SafetyAttestation.signer)) = .ok (s, n)) :
    loadSiteRatings (some sid) url eth (.ok R) gl st =
      { siteRatings := some ⟨s, n, s + n⟩,
        userRating :=
          match eth with
          | none => st.userRating
          | some addr =>
            match gl addr with
            | .error _ => st.userRating
            | .ok (some a) => some a.isSafe
            | .ok none => none,
        loading := false } := by
  cases eth with
  | none => simp [loadSiteRatings, hurl, hcount]
  | some addr =>
    cases hga : gl addr with
    | error e => simp [loadSiteRatings, hurl, hcount, hga]
    | ok latest =>
      cases latest with
      | none => simp [loadSiteRatings, hurl, hcount, hga]
      | some a => simp [loadSiteRatings, hurl, hcount, hga]

/-- `loadSiteRatings_ok_eq` specialized to an anonymous viewer. -/
theorem loadSiteRatings_ok_anon (sid url : String)
    (R : List SafetyAttestation)
    (gl : String → Except String (Option SafetyAttestation))
    (st : SiteState) (hurl : url ≠ "") {s n : Nat}
    (hcount : countRatings gl (jsSet (R.map SafetyAttestation.signer)) = .ok (s, n)) :
    loadSiteRatings (some sid) url none (.ok R) gl st =
      { st with siteRatings := some ⟨s, n, s + n⟩, loading := false } :=
  loadSiteRatings_ok_eq sid url none R gl st hurl hcount

/-- `loadSiteRatings_ok_eq` specialized to a known identity. -/
theorem loadSiteRatings_ok_ident (sid url addrS : String)
    (R : List SafetyAttestation)
    (gl : String → Except String (Option SafetyAttestation))
    (st : SiteState) (hurl : url ≠ "") {s n : Nat}
    (hcount : countRatings gl (jsSet (R.map SafetyAttestation.signer)) = .ok (s, n)) :
    loadSiteRatings (some sid) url (some addrS) (.ok R) gl st =
      { st with
        siteRatings := some ⟨s, n, s + n⟩,
        userRating :=
          (match gl addrS with
          | .error _ => st.userRating
          | .ok (some a) => some a.isSafe
          | .ok none => none),
        loading := false } :=
  loadSiteRatings_ok_eq sid url (some addrS) R gl st hurl hcount

theorem loadSiteRatings_fetch_error (sid url : String) (eth : Option String)
    (msg : String) (gl : String → Except String (Option SafetyAttestation))
    (st : SiteState) (hurl : url ≠ "") :
    loadSiteRatings (some sid) url eth (.error msg) gl st =
      { st with loading := false } := by
  simp [loadSiteRatings, hurl]

theorem loadSiteRatings_count_error (sid url : String) (eth : Option String)
    (R : List SafetyAttestation)
    (gl : String → Except String (Option SafetyAttestation))
    (st : SiteState) (msg : String) (hurl : url ≠ "")
    (hcount : countRatings gl (jsSet (R.map SafetyAttestation.signer)) = .error msg) :
    loadSiteRatings (some sid) url eth (.ok R) gl st =
      { st with loading := false } := by
  simp [loadSiteRatings, hurl, hcount]

/-! ## Claim theorems -/

/-- C1: for every sequence of vote attestation records and every (case-folded)
signer occurring in it, the `userVotes` resolution holds exactly that signer's
record of maximal timestamp — a held record is replaced only by a strictly
newer one, so the strictly newest record wins regardless of input order, and
among records sharing the maximal timestamp the first encountered in input
order is kept (it heads the filtered-by-maximal-timestamp sub-sequence). -/
theorem C1_latest_per_signer (atts : List VoteAttestation) (s : String)
    (h : recordsOf atts s ≠ []) :
    ∃ a, lookupKey s (userVotesReduce atts) = some a ∧
      a ∈ recordsOf atts s ∧
      (∀ b ∈ recordsOf atts s, b.attestTimestamp ≤ a.attestTimestamp) ∧
      ((recordsOf atts s).filter
        (fun b => b.attestTimestamp = a.attestTimestamp)).head? = some a := by
  obtain ⟨a, hla, hmem, hmax, hhead⟩ :=
    latestBy_spec (fun b => b.attestTimestamp) (recordsOf atts s) h
  exact ⟨a, (lookupKey_userVotesReduce atts s).trans hla, hmem, hmax, hhead⟩

/-- Witness for C1 at the concrete record set `exVotes` and signer `"0xa"`. -/
theorem C1_latest_per_signer_witness :
    recordsOf exVotes "0xa" ≠ [] ∧
    ∃ a, lookupKey "0xa" (userVotesReduce exVotes) = some a ∧
      a ∈ recordsOf exVotes "0xa" ∧
      (∀ b ∈ recordsOf exVotes "0xa", b.attestTimestamp ≤ a.attestTimestamp) ∧
      ((recordsOf exVotes "0xa").filter
        (fun b => b.attestTimestamp = a.attestTimestamp)).head? = some a :=
  ⟨by decide, C1_latest_per_signer exVotes "0xa" (by decide)⟩

/-- C2 counterexample: for `exCaseRecords`, whose two signers differ only in
letter case, the site-safety pipeline's unique-user set holds two entries and
the published tally counts two units, although only one case-folded signer
occurs — refuting case-insensitive signer identity for that pipeline. -/
theorem C2_counterexample :
    jsSet (exCaseRecords.map SafetyAttestation.signer) = ["0xABC", "0xabc"] ∧
    jsSet (exCaseRecords.map (fun a => a.signer.jsLower)) = ["0xabc"] ∧
    (loadSiteRatings (some "schema") "example.com" none (.ok exCaseRecords)
      (okOracle exCaseRecords) ⟨none, none, false⟩).siteRatings =
        some ⟨2, 0, 2⟩ := by
  refine ⟨by decide, by decide, by decide⟩

/-- C2 amended: the comment-vote pipeline resolves signers case-insensitively
(its map is keyed by the case-folded attester, so two records differing only
in case yield one entry), while the site-safety pipeline's unique-user set is
keyed by the exact signer string (one entry per distinct raw string). -/
theorem C2_amended_case_folding :
    (∀ atts : List VoteAttestation,
      (userVotesReduce atts).map Prod.fst =
        jsSet (atts.map (fun a => a.attester.jsLower))) ∧
    (∀ a b : VoteAttestation, a.attester.jsLower = b.attester.jsLower →
      (userVotesReduce [a, b]).map Prod.fst = [a.attester.jsLower]) ∧
    (∀ R : List SafetyAttestation,
      (jsSet (R.map SafetyAttestation.signer)).Nodup ∧
      ∀ x, x ∈ jsSet (R.map SafetyAttestation.signer) ↔
        x ∈ R.map SafetyAttestation.signer) := by
  refine ⟨map_fst_userVotesReduce, ?_, fun R => ⟨nodup_jsSet _, fun x => mem_jsSet _ x⟩⟩
  intro a b hab
  rw [map_fst_userVotesReduce]
  simp only [List.map_cons, List.map_nil, ← hab]
  simp [jsSet, jsSetAdd]

/-- Witness for C2's amended claim: two concrete differently-cased records
resolve to the single key `"0xabc"`. -/
theorem C2_amended_case_folding_witness :
    (userVotesReduce [⟨"0xABC", 1, 1⟩, ⟨"0xabc", 2, -1⟩]).map Prod.fst =
      ["0xabc"] := by
  have h := C2_amended_case_folding.2.1 ⟨"0xABC", 1, 1⟩ ⟨"0xabc", 2, -1⟩ (by decide)
  exact h.trans (by decide)

/-- C3 counterexample: for `exCaseRecords` the site pipeline publishes a total
of 2 although the record set contains a single distinct case-folded signer. -/
theorem C3_counterexample :
    (loadSiteRatings (some "schema") "example.com" none (.ok exCaseRecords)
      (okOracle exCaseRecords) ⟨none, none, false⟩).siteRatings =
        some ⟨2, 0, 2⟩ ∧
    (jsSet (exCaseRecords.map (fun a => a.signer.jsLower))).length = 1 := by
  refine ⟨by decide, by decide⟩

/-- C3 amended: the published tally always satisfies
`total = positive + negative`; in the comment pipeline (for records carrying
votes in {+1, -1}) the total equals the number of distinct case-folded
signers, while in the site pipeline it equals the number of distinct
exact-case signer strings. -/
theorem C3_amended_tally_conservation :
    (∀ (eth : Option String) (atts : List VoteAttestation),
      (∀ a ∈ atts, a.vote = 1 ∨ a.vote = -1) →
      (votesForComment eth atts).upvotes + (votesForComment eth atts).downvotes =
        (jsSet (atts.map (fun a => a.attester.jsLower))).length) ∧
    (∀ (sid url : String) (eth : Option String) (R : List SafetyAttestation)
      (st : SiteState), url ≠ "" →
      ∃ s n : Nat,
        (loadSiteRatings (some sid) url eth (.ok R) (okOracle R) st).siteRatings =
          some ⟨s, n, s + n⟩ ∧
        s + n = (jsSet (R.map SafetyAttestation.signer)).length) := by
  constructor
  · intro eth atts h
    show (tallyVotes (userVotesReduce atts)).1 + (tallyVotes (userVotesReduce atts)).2 = _
    rw [tallyVotes_sum _ (fun p hp => h p.2 (mem_userVotesReduce_elim hp).1)]
    rw [← map_fst_userVotesReduce]
    exact (List.length_map _ _).symm
  · intro sid url eth R st hurl
    obtain ⟨s, n, hcount, hlen⟩ := countRatings_length (latestRecordForSigner R)
      (jsSet (R.map SafetyAttestation.signer))
      (fun u hu => latestRecordForSigner_isSome ((mem_jsSet _ u).mp hu))
    refine ⟨s, n, ?_, hlen⟩
    rw [loadSiteRatings_ok_eq sid url eth R (okOracle R) st hurl hcount]

/-- Witness for C3's amended claim at spec scenarios 7 (comment votes) and 6
(site ratings). -/
theorem C3_amended_tally_conservation_witness :
    ((votesForComment (some "0xa") exScenario7).upvotes +
      (votesForComment (some "0xa") exScenario7).downvotes =
        (jsSet (exScenario7.map (fun a => a.attester.jsLower))).length) ∧
    (∃ s n : Nat,
      (loadSiteRatings (some "schema") "site.com" (some "u2") (.ok exScenario6)
        (okOracle exScenario6) ⟨none, none, false⟩).siteRatings = some ⟨s, n, s + n⟩ ∧
      s + n = (jsSet (exScenario6.map SafetyAttestation.signer)).length) :=
  ⟨C3_amended_tally_conservation.1 (some "0xa") exScenario7 (by decide),
   C3_amended_tally_conservation.2 "schema" "site.com" (some "u2") exScenario6
     ⟨none, none, false⟩ (by decide)⟩

/-- C4: when an identity is known at load completion, each pipeline's
own-judgment is the payload of that identity's latest (maximal-timestamp)
record when one exists, and `none` when the identity has no record. -/
theorem C4_own_judgment (atts : List VoteAttestation) (addr : String)
    (R : List SafetyAttestation) (sid url : String) (st : SiteState)
    (hurl : url ≠ "") :
    ((recordsOf atts addr.jsLower = [] →
        (votesForComment (some addr) atts).userVote = none) ∧
      (recordsOf atts addr.jsLower ≠ [] →
        ∃ a, a ∈ recordsOf atts addr.jsLower ∧
          (∀ b ∈ recordsOf atts addr.jsLower,
            b.attestTimestamp ≤ a.attestTimestamp) ∧
          (votesForComment (some addr) atts).userVote = some a.vote)) ∧
    ((siteRecordsOf R addr = [] →
        (loadSiteRatings (some sid) url (some addr) (.ok R)
          (okOracle R) st).userRating = none) ∧
      (siteRecordsOf R addr ≠ [] →
        ∃ a, a ∈ siteRecordsOf R addr ∧
          (∀ b ∈ siteRecordsOf R addr,
            b.attestTimestamp ≤ a.attestTimestamp) ∧
          (loadSiteRatings (some sid) url (some addr) (.ok R)
            (okOracle R) st).userRating = some a.isSafe)) := by
  have hinv : ∀ p ∈ userVotesReduce atts, p.2.attester.jsLower = p.1 :=
    fun p hp => (mem_userVotesReduce_elim hp).2
  have hnd : ((userVotesReduce atts).map Prod.fst).Nodup := by
    rw [map_fst_userVotesReduce]
    exact nodup_jsSet _
  have huv : (votesForComment (some addr) atts).userVote =
      (latestBy (fun b => b.attestTimestamp)
        (recordsOf atts addr.jsLower)).map (fun a => a.vote) := by
    show computeUserVote (some addr) (userVotesReduce atts) = _
    rw [computeUserVote_eq_lookup addr _ hinv hnd, lookupKey_userVotesReduce]
  obtain ⟨s, n, hcount, _⟩ := countRatings_length (latestRecordForSigner R)
    (jsSet (R.map SafetyAttestation.signer))
    (fun u hu => latestRecordForSigner_isSome ((mem_jsSet _ u).mp hu))
  have hur : (loadSiteRatings (some sid) url (some addr) (.ok R)
      (okOracle R) st).userRating =
      match latestRecordForSigner R addr with
      | some a => some a.isSafe
      | none => none := by
    rw [loadSiteRatings_ok_eq sid url (some addr) R (okOracle R) st hurl hcount]
    cases hlr : latestRecordForSigner R addr with
    | none => simp [okOracle, hlr]
    | some a => simp [okOracle, hlr]
  refine ⟨⟨?_, ?_⟩, ?_, ?_⟩
  · intro hnil
    rw [huv, hnil, latestBy_nil]
    rfl
  · intro hne
    obtain ⟨a, hla, hmem, hmax, _⟩ :=
      latestBy_spec (fun b => b.attestTimestamp) _ hne
    exact ⟨a, hmem, hmax, by rw [huv, hla]; rfl⟩
  · intro hnil
    rw [hur]
    unfold latestRecordForSigner
    rw [hnil, latestBy_nil]
  · intro hne
    obtain ⟨a, hla, hmem, hmax, _⟩ :=
      latestBy_spec (fun b => b.attestTimestamp) _ hne
    refine ⟨a, hmem, hmax, ?_⟩
    rw [hur]
    unfold latestRecordForSigner
    rw [hla]

/-- Witness for C4 at scenario 7 (identity `"0xa"`) and scenario 6 (identity
`"U1"`, exercising the case-insensitive own-record lookup). -/
theorem C4_own_judgment_witness :
    (∃ a, a ∈ recordsOf exScenario7 (String.jsLower "0xa") ∧
      (∀ b ∈ recordsOf exScenario7 (String.jsLower "0xa"),
        b.attestTimestamp ≤ a.attestTimestamp) ∧
      (votesForComment (some "0xa") exScenario7).userVote = some a.vote) ∧
    (∃ a, a ∈ siteRecordsOf exScenario6 "U1" ∧
      (∀ b ∈ siteRecordsOf exScenario6 "U1",
        b.attestTimestamp ≤ a.attestTimestamp) ∧
      (loadSiteRatings (some "schema") "site.com" (some "U1") (.ok exScenario6)
        (okOracle exScenario6) ⟨none, none, false⟩).userRating = some a.isSafe) := by
  obtain ⟨⟨_, hc1⟩, _⟩ := C4_own_judgment exScenario7 "0xa" exScenario6
    "schema" "site.com" ⟨none, none, false⟩ (by decide)
  obtain ⟨_, _, hs1⟩ := C4_own_judgment exScenario7 "U1" exScenario6
    "schema" "site.com" ⟨none, none, false⟩ (by decide)
  exact ⟨hc1 (by decide), hs1 (by decide)⟩

/-- C5 counterexample: with the schema identifier absent, `loadSiteRatings`
leaves the state exactly as it was (here a prior tally `{1, 0, 1}`) instead of
publishing the neutral tally `{0, 0, 0}` the claim promises. -/
theorem C5_counterexample :
    loadSiteRatings none "example.com" (some "0xa") (.error "unused")
      (fun _ => .error "unused") ⟨some ⟨1, 0, 1⟩, some true, false⟩ =
      ⟨some ⟨1, 0, 1⟩, some true, false⟩ ∧
    (⟨some ⟨1, 0, 1⟩, some true, false⟩ : SiteState).siteRatings ≠
      some ⟨0, 0, 0⟩ := by
  refine ⟨by decide, by decide⟩

/-- C5 amended: if the schema identifier for a pipeline is absent, invoking
the pipeline performs no attestation-service call and raises no error; the
comment pipeline returns the empty vote map, while the site pipeline returns
with its published state untouched (so a fresh mount keeps `siteRatings`
at `null` rather than a zero tally). -/
theorem C5_amended_missing_schema :
    (∀ (url : String) (eth : Option String)
      (g : Except String (List SafetyAttestation))
      (gl : String → Except String (Option SafetyAttestation)) (st : SiteState),
      loadSiteRatings none url eth g gl st = st) ∧
    (∀ (eth : Option String)
      (fetch : String → Except String (List VoteAttestation))
      (ids : List String), getVotesForComments none eth fetch ids = []) := by
  constructor
  · intro url eth g gl st
    simp [loadSiteRatings]
  · intro eth fetch ids
    rfl

/-- C6 counterexample: `voteOnComment` invoked with no known identity resolves
normally (second component `false`, no rejection reaches the caller), emitting
only an error toast — the failure is not surfaced to the caller. -/
theorem C6_counterexample :
    voteOnComment (some "schema") none "comment-1" (.ok ()) =
      ([ToastStatus.error], false) := by decide

/-- C6 amended: a submission with missing schema, subject, or identity fails
fast with no attestation-service write in both pipelines; `rateSite` surfaces
it by rejecting (throwing to its caller, with no toast), while `voteOnComment`
surfaces it only as an error toast and resolves normally. -/
theorem C6_amended_fail_fast :
    (∀ (sid : Option String) (url : String) (eth email : Option String)
      (isSafe : Bool) (create : Except String Unit)
      (g : Except String (List SafetyAttestation))
      (gl : String → Except String (Option SafetyAttestation)) (st : SiteState),
      sid = none ∨ url = "" ∨ eth = none ∨ email = none →
      rateSite sid url eth email isSafe create g gl st = (st, [], true)) ∧
    (∀ (sid eth : Option String) (cid : String) (create : Except String Unit),
      sid = none ∨ cid = "" ∨ eth = none →
      voteOnComment sid eth cid create = ([ToastStatus.error], false)) := by
  constructor
  · intro sid url eth email isSafe create g gl st h
    have hcond : sid.isNone ∨ url = "" ∨ eth.isNone ∨ email.isNone := by
      rcases h with h | h | h | h
      · exact Or.inl (by simp [h])
      · exact Or.inr (Or.inl h)
      · exact Or.inr (Or.inr (Or.inl (by simp [h])))
      · exact Or.inr (Or.inr (Or.inr (by simp [h])))
    unfold rateSite
    rw [if_pos hcond]
  · intro sid eth cid create h
    have hcond : sid.isNone ∨ cid = "" ∨ eth.isNone := by
      rcases h with h | h | h
      · exact Or.inl (by simp [h])
      · exact Or.inr (Or.inl h)
      · exact Or.inr (Or.inr (by simp [h]))
    unfold voteOnComment
    rw [if_pos hcond]

/-- Witness for C6's amended claim: a `rateSite` call with no identity rejects
with untouched state and no I/O; a `voteOnComment` call with no identity
error-toasts and resolves. -/
theorem C6_amended_fail_fast_witness :
    rateSite (some "schema") "example.com" none (some "mail") true (.ok ())
      (.ok []) (fun _ => .ok none) ⟨none, none, false⟩ =
      (⟨none, none, false⟩, [], true) ∧
    voteOnComment (some "schema") none "comment-1" (.error "unused") =
      ([ToastStatus.error], false) :=
  ⟨C6_amended_fail_fast.1 (some "schema") "example.com" none (some "mail") true
      (.ok ()) (.ok []) (fun _ => .ok none) ⟨none, none, false⟩
      (Or.inr (Or.inr (Or.inl rfl))),
   C6_amended_fail_fast.2 (some "schema") none "comment-1" (.error "unused")
      (Or.inr (Or.inr rfl))⟩

/-- C7: when submission preconditions pass but the attestation write fails,
both pipelines leave the published tally and own-judgment at their
pre-submission values and emit exactly one failure toast (`rateSite`
additionally re-throws). -/
theorem C7_submission_failure (sid url addrS email msg cid : String)
    (isSafe : Bool) (g : Except String (List SafetyAttestation))
    (gl : String → Except String (Option SafetyAttestation)) (st : SiteState)
    (hurl : url ≠ "") (hcid : cid ≠ "") :
    rateSite (some sid) url (some addrS) (some email) isSafe (.error msg)
      g gl st = ({ st with loading := false }, [ToastStatus.error], true) ∧
    voteOnComment (some sid) (some addrS) cid (.error msg) =
      ([ToastStatus.error], false) := by
  constructor
  · unfold rateSite
    rw [if_neg (by simp [hurl])]
  · unfold voteOnComment
    rw [if_neg (by simp [hcid])]

/-- Witness for C7: a failing write on top of the prior tally `{2, 1, 3}`
leaves it (and the own-judgment) unchanged with exactly one error toast. -/
theorem C7_submission_failure_witness :
    rateSite (some "schema") "example.com" (some "0xa") (some "mail") true
      (.error "boom") (.ok []) (fun _ => .ok none)
      ⟨some ⟨2, 1, 3⟩, some false, false⟩ =
      (⟨some ⟨2, 1, 3⟩, some false, false⟩, [ToastStatus.error], true) ∧
    voteOnComment (some "schema") (some "0xa") "comment-1" (.error "boom") =
      ([ToastStatus.error], false) :=
  C7_submission_failure "schema" "example.com" "0xa" "mail" "boom" "comment-1"
    true (.ok []) (fun _ => .ok none) ⟨some ⟨2, 1, 3⟩, some false, false⟩
    (by decide) (by decide)

/-- C8 counterexample: a load in which an attestation-service fetch fails (the
current user's own-record lookup rejects) nevertheless replaces the previously
published tally `{2, 1, 3}` with the freshly computed `{1, 0, 1}` — the prior
tally is not preserved. -/
theorem C8_counterexample :
    exFailingUserOracle "0xb" = .error "network" ∧
    loadSiteRatings (some "schema") "example.com" (some "0xb") (.ok exOneRecord)
      exFailingUserOracle ⟨some ⟨2, 1, 3⟩, some true, false⟩ =
      ⟨some ⟨1, 0, 1⟩, some true, false⟩ := by
  refine ⟨rfl, by decide⟩

/-- C8 amended: a failure of the bulk fetch or of a per-signer lookup before
publication preserves the prior state (only `loading` is reset), and the
comment pipeline returns the empty map on any fetch failure; but a failure of
the current user's own-record lookup occurs after the tally publish, so that
load replaces the prior tally while preserving the own-judgment. -/
theorem C8_amended_retrieval_failure :
    (∀ (sid url : String) (eth : Option String) (msg : String)
      (gl : String → Except String (Option SafetyAttestation)) (st : SiteState),
      url ≠ "" →
      loadSiteRatings (some sid) url eth (.error msg) gl st =
        { st with loading := false }) ∧
    (∀ (sid url : String) (eth : Option String) (R : List SafetyAttestation)
      (gl : String → Except String (Option SafetyAttestation)) (st : SiteState)
      (msg : String), url ≠ "" →
      countRatings gl (jsSet (R.map SafetyAttestation.signer)) = .error msg →
      loadSiteRatings (some sid) url eth (.ok R) gl st =
        { st with loading := false }) ∧
    (∀ (sid : String) (eth : Option String)
      (fetch : String → Except String (List VoteAttestation))
      (ids : List String) (msg : String),
      buildVoteMap eth fetch ids = .error msg →
      getVotesForComments (some sid) eth fetch ids = []) ∧
    (∀ (sid url addrS : String) (R : List SafetyAttestation)
      (gl : String → Except String (Option SafetyAttestation)) (st : SiteState)
      (s n : Nat) (msg : String), url ≠ "" →
      countRatings gl (jsSet (R.map SafetyAttestation.signer)) = .ok (s, n) →
      gl addrS = .error msg →
      loadSiteRatings (some sid) url (some addrS) (.ok R) gl st =
        { st with siteRatings := some ⟨s, n, s + n⟩, loading := false }) := by
  refine ⟨?_, ?_, ?_, ?_⟩
  · intro sid url eth msg gl st hurl
    exact loadSiteRatings_fetch_error sid url eth msg gl st hurl
  · intro sid url eth R gl st msg hurl hcount
    exact loadSiteRatings_count_error sid url eth R gl st msg hurl hcount
  · intro sid eth fetch ids msg hbuild
    unfold getVotesForComments
    rw [hbuild]
  · intro sid url addrS R gl st s n msg hurl hcount hga
    rw [loadSiteRatings_ok_ident sid url addrS R gl st hurl hcount, hga]

/-- Witness for C8's amended claim: a failing bulk fetch and a failing
per-signer lookup each preserve the prior state, while a failing own-record
lookup preserves the own-judgment but lets the fresh tally stand. -/
theorem C8_amended_retrieval_failure_witness :
    loadSiteRatings (some "schema") "example.com" (some "0xa") (.error "network")
      (fun _ => .ok none) ⟨some ⟨2, 1, 3⟩, some true, false⟩ =
      ⟨some ⟨2, 1, 3⟩, some true, false⟩ ∧
    loadSiteRatings (some "schema") "example.com" (some "0xa") (.ok exOneRecord)
      (fun _ => .error "network") ⟨some ⟨2, 1, 3⟩, some true, false⟩ =
      ⟨some ⟨2, 1, 3⟩, some true, false⟩ ∧
    loadSiteRatings (some "schema") "example.com" (some "0xb") (.ok exOneRecord)
      exFailingUserOracle ⟨some ⟨2, 1, 3⟩, some true, false⟩ =
      ⟨some ⟨1, 0, 1⟩, some true, false⟩ :=
  ⟨C8_amended_retrieval_failure.1 "schema" "example.com" (some "0xa") "network"
      (fun _ => .ok none) ⟨some ⟨2, 1, 3⟩, some true, false⟩ (by decide),
   C8_amended_retrieval_failure.2.1 "schema" "example.com" (some "0xa")
      exOneRecord (fun _ => .error "network") ⟨some ⟨2, 1, 3⟩, some true, false⟩
      "network" (by decide) rfl,
   C8_amended_retrieval_failure.2.2.2 "schema" "example.com" "0xb" exOneRecord
      exFailingUserOracle ⟨some ⟨2, 1, 3⟩, some true, false⟩ 1 0 "network"
      (by decide) rfl rfl⟩

/-- C9 counterexample: an anonymous (no identity) load completes and publishes
the tally, but `userRating` keeps the value `some true` left by a previously
known identity instead of becoming `none`. -/
theorem C9_counterexample :
    loadSiteRatings (some "schema") "example.com" none (.ok exOneRecord)
      (okOracle exOneRecord) ⟨none, some true, false⟩ =
      ⟨some ⟨1, 0, 1⟩, some true, false⟩ := by decide

/-- C9 amended: with no identity, every completed load publishes the tally and
submission is disallowed in both pipelines, and the comment pipeline reports
the viewer's own vote as `none`; the site pipeline however skips the
own-judgment update entirely, so `userRating` retains whatever value it
previously held (possibly from a previously known identity). -/
theorem C9_amended_anonymous_viewer :
    (∀ atts : List VoteAttestation,
      (votesForComment none atts).userVote = none) ∧
    (∀ (sid url : String) (R : List SafetyAttestation)
      (gl : String → Except String (Option SafetyAttestation)) (st : SiteState)
      (s n : Nat), url ≠ "" →
      countRatings gl (jsSet (R.map SafetyAttestation.signer)) = .ok (s, n) →
      loadSiteRatings (some sid) url none (.ok R) gl st =
        { st with siteRatings := some ⟨s, n, s + n⟩, loading := false }) ∧
    (∀ (sid : Option String) (url : String) (email : Option String)
      (isSafe : Bool) (create : Except String Unit)
      (g : Except String (List SafetyAttestation))
      (gl : String → Except String (Option SafetyAttestation)) (st : SiteState),
      rateSite sid url none email isSafe create g gl st = (st, [], true)) ∧
    (∀ (sid : Option String) (cid : String) (create : Except String Unit),
      voteOnComment sid none cid create = ([ToastStatus.error], false)) := by
  refine ⟨?_, ?_, ?_, ?_⟩
  · intro atts
    exact computeUserVote_none (userVotesReduce atts)
  · intro sid url R gl st s n hurl hcount
    exact loadSiteRatings_ok_anon sid url R gl st hurl hcount
  · intro sid url email isSafe create g gl st
    have hcond : sid.isNone ∨ url = "" ∨ (none : Option String).isNone ∨
        email.isNone := Or.inr (Or.inr (Or.inl rfl))
    unfold rateSite
    rw [if_pos hcond]
  · intro sid cid create
    have hcond : sid.isNone ∨ cid = "" ∨ (none : Option String).isNone :=
      Or.inr (Or.inr rfl)
    unfold voteOnComment
    rw [if_pos hcond]

/-- Witness for C9's amended claim: an anonymous comment resolution reports no
own vote, and an anonymous site load publishes the tally with `userRating`
untouched. -/
theorem C9_amended_anonymous_viewer_witness :
    (votesForComment none exScenario7).userVote = none ∧
    loadSiteRatings (some "schema") "example.com" none (.ok exOneRecord)
      (okOracle exOneRecord) ⟨none, some true, false⟩ =
      ⟨some ⟨1, 0, 1⟩, some true, false⟩ :=
  ⟨C9_amended_anonymous_viewer.1 exScenario7,
   C9_amended_anonymous_viewer.2.1 "schema" "example.com" exOneRecord
      (okOracle exOneRecord) ⟨none, some true, false⟩ 1 0 (by decide) rfl⟩

/-- C10: `voteOnComment` never rejects — for every input its result's
rejection flag is `false`, and on any write failure it reports only through
the error toast — whereas `rateSite` re-throws a failed write to its caller. -/
theorem C10_vote_never_rejects :
    (∀ (sid eth : Option String) (cid : String) (create : Except String Unit),
      (voteOnComment sid eth cid create).2 = false) ∧
    (∀ (sid eth : Option String) (cid msg : String),
      voteOnComment sid eth cid (.error msg) = ([ToastStatus.error], false)) ∧
    (∀ (sid url addrS email msg : String) (isSafe : Bool)
      (g : Except String (List SafetyAttestation))
      (gl : String → Except String (Option SafetyAttestation)) (st : SiteState),
      url ≠ "" →
      (rateSite (some sid) url (some addrS) (some email) isSafe (.error msg)
        g gl st).2.2 = true) := by
  refine ⟨?_, ?_, ?_⟩
  · intro sid eth cid create
    unfold voteOnComment
    split
    · rfl
    · cases create <;> rfl
  · intro sid eth cid msg
    unfold voteOnComment
    split <;> rfl
  · intro sid url addrS email msg isSafe g gl st hurl
    unfold rateSite
    rw [if_neg (by simp [hurl])]

/-- Witness for C10: a failing vote write resolves normally with an error
toast; a failing rating write rejects. -/
theorem C10_vote_never_rejects_witness :
    (voteOnComment (some "schema") (some "0xa") "comment-1"
      (.error "boom")).2 = false ∧
    (rateSite (some "schema") "example.com" (some "0xa") (some "mail") true
      (.error "boom") (.ok []) (fun _ => .ok none)
      ⟨none, none, false⟩).2.2 = true :=
  ⟨C10_vote_never_rejects.1 (some "schema") (some "0xa") "comment-1"
      (.error "boom"),
   C10_vote_never_rejects.2.2 "schema" "example.com" "0xa" "mail" "boom" true
      (.ok []) (fun _ => .ok none) ⟨none, none, false⟩ (by decide)⟩

end ScamTracker
